import Mathlib

/-!
Verification of the salary-estimator pipeline core.

This file shallowly embeds the pure algorithmic content of the repository
`salary-estimator` (the knowledge-base matching/filtering algorithm, the
web-evidence extraction/scoring/deduplication algorithm, and the synthesis
stage's post-processing) and proves the specification's claims about it.

Conventions of the embedding:
  - Python `str` is embedded as `List Char` (abbreviated `Str`); Python
    floats that carry exact decimal constants and comparisons are embedded
    as `ℚ`; Python `int` is `ℤ` (or `ℕ` where the source only ever
    produces non-negative values).
  - Python dictionaries with possibly-missing keys (`dict.get`) are
    embedded as structures of `Option` fields.
  - Code that can raise (pydantic model validation) returns
    `Except String _`; an uncaught exception is `Except.error`.
-/

abbrev Str := List Char

/-! ## Character classes used by the regular expressions of
`nodes/web_searcher.py` -/

/-- The character class `[\d,]` of the salary regexes: an ASCII digit or a
comma. -/
def isDigitComma (c : Char) : Bool := c.isDigit || c = ','

/-- The character class `\s` (whitespace) as relevant to the embedded
patterns. -/
def isSpaceChar (c : Char) : Bool := c = ' ' || c = '\t' || c = '\n' || c = '\r'

/-- Case-insensitive substring containment, embedding Python's
`needle in haystack` on lowercased strings (the source lowercases before
testing, so the embedding is used on already-lowercased data). -/
def containsStr (needle : Str) : Str → Bool
  | [] => needle.isPrefixOf []
  | c :: t => needle.isPrefixOf (c :: t) || containsStr needle t

/-- Locate the first `://` separator, returning what follows it.
Helper for `netloc`. -/
def afterSchemeSep : Str → Option Str
  | ':' :: '/' :: '/' :: rest => some rest
  | _ :: rest => afterSchemeSep rest
  | [] => none

/-- Modelled from the Python standard library: `urlparse(link).netloc` for
scheme-qualified URLs (the form the search provider returns): the text
between `://` and the next `/`, `?` or `#`; empty when no scheme separator
is present. -/
def netloc (s : Str) : Str :=
  match afterSchemeSep s with
  | some rest => rest.takeWhile (fun c => !(c = '/' || c = '?' || c = '#'))
  | none => []

/-- Embeds `re.search(r'$[\d,]+', snippet) is not None`: some `$`
immediately followed by at least one digit-or-comma character. -/
def hasCurrencyAmount : Str → Bool
  | [] => false
  | '$' :: c :: rest => if isDigitComma c then true else hasCurrencyAmount ('$' :: rest)
  | _ :: rest => hasCurrencyAmount rest

/-! ## Data model (`models/profile.py`, `models/estimation.py`) -/

/-- `ProfileData` of `models/profile.py`. `years_of_experience` is a
non-negative float in the source; embedded as `ℚ`. -/
structure ProfileData where
  title : Str
  company : Str
  company_tier : Str
  years_of_experience : ℚ
  location : Str
  skills : List Str
  education : Str
  industry : Str
  seniority_level : Str
deriving DecidableEq

/-- `SalaryBenchmark` of `models/estimation.py`. -/
structure SalaryBenchmark where
  role : Str
  location : Str
  company_tier : Str
  years_of_experience_min : ℤ
  years_of_experience_max : ℤ
  salary_min : ℤ
  salary_max : ℤ
  salary_median : ℤ
  currency : Str
  source : Str
  year : ℤ
deriving DecidableEq

/-- `SearchResult` of `models/estimation.py`. -/
structure SearchResult where
  query : Str
  source : Str
  title : Str
  snippet : Str
  salary_mentions : List ℕ
  relevance_score : ℚ
deriving DecidableEq

/-- `SalaryRange` of `models/estimation.py`. -/
structure SalaryRange where
  currency : Str
  min : ℤ
  max : ℤ
  median : ℤ
deriving DecidableEq

/-- `ConfidenceInfo` of `models/estimation.py`. -/
structure ConfidenceInfo where
  score : ℚ
  level : Str
  data_points : ℕ
  factors : List Str
deriving DecidableEq

/-- Modelled from the spec: `SalaryEstimationState` (`state.py`, the typed
state container of section 4.1, not shipped under `src/`): an aggregate of
optional fields, one per producing stage; a field not yet produced is
`none` (the explicit absent sentinel), matching the nodes' uses of
`state.get(...)`. -/
structure SalaryEstimationState where
  raw_profile : Option Str
  profile : Option ProfileData
  search_queries : Option (List Str)
  search_results : Option (List SearchResult)
  kb_matches : Option (List SalaryBenchmark)
deriving DecidableEq

/-! ## Relevance scoring (`web_searcher._calculate_relevance`) -/

/-- The fixed `trusted_domains` list of `_calculate_relevance`. -/
def trusted_domains : List Str :=
  ["levels.fyi".toList, "glassdoor".toList, "indeed".toList,
   "payscale".toList, "linkedin".toList]

/-- The fixed `salary_keywords` list of `_calculate_relevance`. -/
def salary_keywords : List Str :=
  ["salary".toList, "compensation".toList, "pay".toList, "wage".toList,
   "earning".toList, "total comp".toList]

/-- The trusted-domain condition of `_calculate_relevance`: some trusted
domain occurs in `urlparse(link.lower()).netloc`. -/
def trustedDomainHit (link : Str) : Bool :=
  trusted_domains.any (fun d => containsStr d (netloc (link.map Char.toLower)))

/-- The salary-keyword condition of `_calculate_relevance`: some keyword
occurs in the lowercased title or snippet. -/
def salaryKeywordHit (title snippet : Str) : Bool :=
  salary_keywords.any (fun kw =>
    containsStr kw (title.map Char.toLower) || containsStr kw (snippet.map Char.toLower))

/-- The recent-year condition of `_calculate_relevance`: the snippet
mentions the literal `2024` or `2025` (the current and prior year fixed in
the source). -/
def recentYearHit (snippet : Str) : Bool :=
  containsStr "2024".toList (snippet.map Char.toLower) ||
    containsStr "2025".toList (snippet.map Char.toLower)

/-- The currency-amount condition of `_calculate_relevance`: the lowercased
snippet matches `\$[\d,]+`. -/
def currencyAmountHit (snippet : Str) : Bool :=
  hasCurrencyAmount (snippet.map Char.toLower)

/-- `_calculate_relevance` of `nodes/web_searcher.py`, lines 47-74: a base
score of 0.5 with four additive boosts, capped at 1.0. The `query`
parameter is accepted (as in the source) but never read. -/
def calculate_relevance (title snippet link query : Str) : ℚ :=
  let score : ℚ := 0.5
  let score := if trustedDomainHit link then score + 0.2 else score
  let score := if salaryKeywordHit title snippet then score + 0.15 else score
  let score := if recentYearHit snippet then score + 0.1 else score
  let score := if currencyAmountHit snippet then score + 0.05 else score
  min score 1

/-! ## Salary-figure extraction (`web_searcher._extract_salary_mentions`)

The four regular expressions `SALARY_PATTERNS` are embedded as direct
greedy matchers; for these patterns maximal munch coincides with Python's
leftmost/greedy backtracking semantics because no character class overlaps
the character that must follow it. A matcher returns the matched text and
the remaining input. -/

/-- Greedy `cls+`: a non-empty maximal run of characters satisfying `p`. -/
def takeWhile1 (p : Char → Bool) (cs : Str) : Option (Str × Str) :=
  match cs.span p with
  | ([], _) => none
  | (run, rest) => some (run, rest)

/-- Case-insensitive literal match (the patterns are compiled with
`re.IGNORECASE`); `lit` is given lowercased, the consumed original
characters are returned. -/
def matchLitCI (lit : Str) : Str → Option (Str × Str)
  | cs =>
    match lit, cs with
    | [], cs => some ([], cs)
    | _ :: _, [] => none
    | l :: ls, c :: cs =>
      if c.toLower = l then (matchLitCI ls cs).map (fun mr => (c :: mr.1, mr.2))
      else none

/-- The optional range tail `(?:\s*-\s*\$[\d,]+)?` of the first pattern;
returns the consumed text (empty when the group does not match). -/
def matchRangeOpt (cs : Str) : Str × Str :=
  let sp1 := cs.span isSpaceChar
  match sp1.2 with
  | '-' :: a1 =>
    let sp2 := a1.span isSpaceChar
    match sp2.2 with
    | '$' :: b1 =>
      match takeWhile1 isDigitComma b1 with
      | some (run2, c) => (sp1.1 ++ '-' :: sp2.1 ++ '$' :: run2, c)
      | none => ([], cs)
    | _ => ([], cs)
  | _ => ([], cs)

/-- The alternation `(?:year|yr|annually|/yr)`, tried in the source's
order. -/
def matchUnitAlt (cs : Str) : Option (Str × Str) :=
  (matchLitCI "year".toList cs).orElse fun _ =>
    (matchLitCI "yr".toList cs).orElse fun _ =>
      (matchLitCI "annually".toList cs).orElse fun _ =>
        matchLitCI "/yr".toList cs

/-- The optional unit tail `(?:\s*(?:per\s+)?(?:year|yr|annually|/yr))?`
of the first pattern: greedy whitespace, then the `per`-variant is
preferred and the bare alternation is the backtracking fallback, as in
Python's engine. -/
def matchSuffixOpt (cs : Str) : Str × Str :=
  let sp := cs.span isSpaceChar
  let withPer : Option (Str × Str) :=
    match matchLitCI "per".toList sp.2 with
    | some (mp, a1) =>
      match takeWhile1 isSpaceChar a1 with
      | some (sp2, a2) =>
        match matchUnitAlt a2 with
        | some (mu, a3) => some (mp ++ sp2 ++ mu, a3)
        | none => none
      | none => none
    | none => none
  match withPer with
  | some (m, rest) => (sp.1 ++ m, rest)
  | none =>
    match matchUnitAlt sp.2 with
    | some (mu, a3) => (sp.1 ++ mu, a3)
    | none => ([], cs)

/-- Pattern 1: `\$[\d,]+(?:\s*-\s*\$[\d,]+)?(?:\s*(?:per\s+)?(?:year|yr|annually|/yr))?`. -/
def matchP1 (cs : Str) : Option (Str × Str) :=
  match cs with
  | '$' :: cs1 =>
    match takeWhile1 isDigitComma cs1 with
    | none => none
    | some (run1, cs2) =>
      let rp := matchRangeOpt cs2
      let sp := matchSuffixOpt rp.2
      some ('$' :: run1 ++ rp.1 ++ sp.1, sp.2)
  | _ => none

/-- Pattern 2: `[\d,]+k\s*-\s*[\d,]+k`. -/
def matchP2 (cs : Str) : Option (Str × Str) :=
  match takeWhile1 isDigitComma cs with
  | none => none
  | some (run1, a) =>
    match a with
    | k1 :: a1 =>
      if k1.toLower = 'k' then
        let sp1 := a1.span isSpaceChar
        match sp1.2 with
        | '-' :: b1 =>
          let sp2 := b1.span isSpaceChar
          match takeWhile1 isDigitComma sp2.2 with
          | some (run2, d) =>
            match d with
            | k2 :: d1 =>
              if k2.toLower = 'k' then
                some (run1 ++ k1 :: sp1.1 ++ '-' :: sp2.1 ++ run2 ++ [k2], d1)
              else none
            | [] => none
          | none => none
        | _ => none
      else none
    | [] => none

/-- Pattern 3: `\$[\d,]+k`. -/
def matchP3 (cs : Str) : Option (Str × Str) :=
  match cs with
  | '$' :: cs1 =>
    match takeWhile1 isDigitComma cs1 with
    | some (run, a) =>
      match a with
      | k :: a1 => if k.toLower = 'k' then some ('$' :: run ++ [k], a1) else none
      | [] => none
    | none => none
  | _ => none

/-- The keyword alternation `(?:salary|compensation|pay|total\s+comp)` of
pattern 4, tried in the source's order. -/
def matchKwAlt (cs : Str) : Option (Str × Str) :=
  (matchLitCI "salary".toList cs).orElse fun _ =>
    (matchLitCI "compensation".toList cs).orElse fun _ =>
      (matchLitCI "pay".toList cs).orElse fun _ =>
        match matchLitCI "total".toList cs with
        | some (m1, a) =>
          match takeWhile1 isSpaceChar a with
          | some (sp, b) =>
            match matchLitCI "comp".toList b with
            | some (m2, c) => some (m1 ++ sp ++ m2, c)
            | none => none
          | none => none
        | none => none

/-- Pattern 4: `(?:salary|compensation|pay|total\s+comp)[:\s]*\$?[\d,]+`. -/
def matchP4 (cs : Str) : Option (Str × Str) :=
  match matchKwAlt cs with
  | none => none
  | some (kw, a) =>
    let colsp := a.span (fun c => c = ':' || isSpaceChar c)
    match colsp.2 with
    | '$' :: b1 =>
      match takeWhile1 isDigitComma b1 with
      | some (run, c) => some (kw ++ colsp.1 ++ '$' :: run, c)
      | none => none
    | _ =>
      match takeWhile1 isDigitComma colsp.2 with
      | some (run, c) => some (kw ++ colsp.1 ++ run, c)
      | none => none

/-- `re.findall` scanning: try the matcher at every position, emit
non-overlapping matches left to right. Fuel-indexed for termination; every
embedded matcher consumes at least one character, so fuel equal to the
text length is exact. -/
def findAllAux (tryM : Str → Option (Str × Str)) : ℕ → Str → List Str
  | 0, _ => []
  | _ + 1, [] => []
  | fuel + 1, c :: cs =>
    match tryM (c :: cs) with
    | some (m, rest) => m :: findAllAux tryM fuel rest
    | none => findAllAux tryM fuel cs

/-- `re.findall(pattern, text, re.IGNORECASE)` for one embedded pattern. -/
def re_findall (tryM : Str → Option (Str × Str)) (text : Str) : List Str :=
  findAllAux tryM text.length text

/-- Maximal runs of `[\d,]` characters of a match, embedding
`re.findall(r'[\d,]+', match)`; `acc` is the reversed current run. -/
def numRunsAux : Str → Str → List Str
  | [], acc => if acc.isEmpty then [] else [acc.reverse]
  | c :: cs, acc =>
    if isDigitComma c then numRunsAux cs (c :: acc)
    else if acc.isEmpty then numRunsAux cs []
    else acc.reverse :: numRunsAux cs []

/-- All `[\d,]+` runs of a matched text. -/
def numRuns (m : Str) : List Str := numRunsAux m []

/-- `int(num_str.replace(',', ''))`: drop commas, then parse a decimal
numeral; `none` embeds the `ValueError` branch (a run of commas only). -/
def parseNum (run : Str) : Option ℕ :=
  let ds := run.filter (fun c => !(c = ','))
  if ds.isEmpty then none
  else if ds.all Char.isDigit then
    some (ds.foldl (fun a c => a * 10 + (c.toNat - '0'.toNat)) 0)
  else none

/-- `'k' in match.lower()`. -/
def hasKChar (m : Str) : Bool := m.any (fun c => c.toLower = 'k')

/-- The inner loop of `_extract_salary_mentions` for one regex match:
parse each numeric run, apply the `k`-notation normalization when the
match contains a `k` and the parsed value is below 1000, and keep the
figure only inside the plausibility band [30000, 2000000]. -/
def processMatch (m : Str) : List ℕ :=
  (numRuns m).filterMap fun run =>
    match parseNum run with
    | none => none
    | some n =>
      let n := if hasKChar m ∧ n < 1000 then n * 1000 else n
      if 30000 ≤ n ∧ n ≤ 2000000 then some n else none

/-- The four `SALARY_PATTERNS`, in source order. -/
def salaryPatternMatchers : List (Str → Option (Str × Str)) :=
  [matchP1, matchP2, matchP3, matchP4]

/-- `_extract_salary_mentions` of `nodes/web_searcher.py`, lines 23-44:
for each pattern, for each match, collect the normalized in-band figures,
then deduplicate (`list(set(...))`; the source's set order is
unspecified, embedded as first-occurrence order). -/
def extract_salary_mentions (text : Str) : List ℕ :=
  (((salaryPatternMatchers.map (fun t => re_findall t text)).flatten).map processMatch).flatten.dedup

/-! ## Knowledge-base matching (`nodes/knowledge_base.py`) -/

/-- A metadata record as returned by the similarity index: every
`SalaryBenchmark` field possibly missing (`metadata.get` in the source). -/
structure BenchmarkMetadata where
  role : Option Str
  location : Option Str
  company_tier : Option Str
  years_of_experience_min : Option ℤ
  years_of_experience_max : Option ℤ
  salary_min : Option ℤ
  salary_max : Option ℤ
  salary_median : Option ℤ
  currency : Option Str
  source : Option Str
  year : Option ℤ
deriving DecidableEq

/-- Whether a metadata record carries every `SalaryBenchmark` field that
has no pydantic default (role, location and the three salary figures). -/
def requiredPresent (m : BenchmarkMetadata) : Bool :=
  m.role.isSome && m.location.isSome && m.salary_min.isSome &&
    m.salary_max.isSome && m.salary_median.isSome

/-- `SalaryBenchmark(**metadata)`: pydantic validation. Fields with
defaults fall back to them; a missing required field raises, embedded as
`Except.error`. -/
def mkBenchmark (m : BenchmarkMetadata) : Except String SalaryBenchmark :=
  match m.role, m.location, m.salary_min, m.salary_max, m.salary_median with
  | some role, some location, some smin, some smax, some smed =>
    Except.ok
      ⟨role, location, m.company_tier.getD "unknown".toList,
       m.years_of_experience_min.getD 0, m.years_of_experience_max.getD 30,
       smin, smax, smed, m.currency.getD "USD".toList,
       m.source.getD "internal_kb".toList, m.year.getD 2024⟩
  | _, _, _, _, _ => Except.error "validation error: missing required field"

/-- The experience filter of `lookup_knowledge_base`, lines 121-126:
`yoe_min - 2 <= yoe <= yoe_max + 2` with the `metadata.get` defaults 0 and
30. -/
def inBandB (yoe : ℚ) (m : BenchmarkMetadata) : Bool :=
  decide (((m.years_of_experience_min.getD 0 : ℤ) : ℚ) - 2 ≤ yoe ∧
    yoe ≤ ((m.years_of_experience_max.getD 30 : ℤ) : ℚ) + 2)

/-- The metadata loop of `lookup_knowledge_base`, lines 117-127: in index
order, append `SalaryBenchmark(**metadata)` for every record passing the
experience filter; an uncaught validation error aborts the loop. -/
def buildMatches (yoe : ℚ) : List BenchmarkMetadata → Except String (List SalaryBenchmark)
  | [] => Except.ok []
  | m :: rest =>
    if inBandB yoe m then
      match mkBenchmark m with
      | Except.error e => Except.error e
      | Except.ok b =>
        match buildMatches yoe rest with
        | Except.error e => Except.error e
        | Except.ok bs => Except.ok (b :: bs)
    else buildMatches yoe rest

/-- `lookup_knowledge_base` of `nodes/knowledge_base.py`, lines 90-132,
restricted to its pure content: the similarity index's reply (the
metadata list, in ranking order) is a parameter; with no profile the
result is empty without consulting the index; otherwise filter by
experience, convert, and truncate to the first 5 (`kb_matches[:5]`). -/
def lookup_knowledge_base (profile : Option ProfileData)
    (metas : List BenchmarkMetadata) : Except String (List SalaryBenchmark) :=
  match profile with
  | none => Except.ok []
  | some p =>
    match buildMatches p.years_of_experience metas with
    | Except.error e => Except.error e
    | Except.ok bs => Except.ok (bs.take 5)

/-! ## Web-search post-processing (`web_searcher.search_web`, lines 147-160) -/

/-- One step of stable descending insertion: place `r` after every element
whose relevance score is at least `r`'s. Python's `list.sort(key=...,
reverse=True)` is a stable sort, and the stable sort by a fixed key is
unique, so this insertion sort embeds it exactly. -/
def insertDesc (r : SearchResult) : List SearchResult → List SearchResult
  | [] => [r]
  | x :: xs =>
    if x.relevance_score < r.relevance_score then r :: x :: xs
    else x :: insertDesc r xs

/-- `all_results.sort(key=lambda x: x.relevance_score, reverse=True)`:
stable sort by relevance score, descending. -/
def sortByRelevanceDesc (l : List SearchResult) : List SearchResult :=
  l.foldl (fun acc r => insertDesc r acc) []

/-- The diversity-selection loop of `search_web`, lines 151-158: walk the
sorted hits; stop at 15 selections; select a hit when its source is fresh
or fewer than 5 hits are selected so far, recording its source either
way. -/
def selectDiverse : List SearchResult → List SearchResult → List Str → List SearchResult
  | [], acc, _ => acc
  | r :: rest, acc, seen =>
    if 15 ≤ acc.length then acc
    else if ¬ r.source ∈ seen ∨ acc.length < 5 then
      selectDiverse rest (acc ++ [r]) (r.source :: seen)
    else selectDiverse rest acc seen

/-- The full post-processing of `search_web` on the combined hit list:
stable sort by relevance descending, then diversity-capped selection. -/
def search_select (l : List SearchResult) : List SearchResult :=
  selectDiverse (sortByRelevanceDesc l) [] []

/-! ## Salary synthesis (`nodes/salary_analyzer.py`) -/

/-- `SalaryAnalysis` of `nodes/salary_analyzer.py`: the typed reply of the
inference service (an external collaborator). -/
structure SalaryAnalysis where
  salary_min : ℤ
  salary_max : ℤ
  salary_median : ℤ
  confidence_score : ℚ
  confidence_level : Str
  reasoning : Str
  adjustments : List Str
deriving DecidableEq

/-- The state update returned by a successful `analyze_salary` (the final
`Estimate`-carrying fields). -/
structure AnalyzeUpdate where
  salary_estimate : SalaryRange
  confidence : ConfidenceInfo
  sources : List Str
  reasoning : Str
  adjustments : List Str
deriving DecidableEq

/-- `_count_data_points` of `nodes/salary_analyzer.py`, lines 107-113: the
benchmark-match count plus the per-hit salary-mention counts. -/
def count_data_points (state : SalaryEstimationState) : ℕ :=
  (state.kb_matches.getD []).length +
    ((state.search_results.getD []).map (fun r => r.salary_mentions.length)).sum

/-- `analyze_salary` of `nodes/salary_analyzer.py`, lines 116-200,
restricted to its pure content: the inference service's reply is a
parameter; with no profile the node raises `ValueError` (`Except.error`);
otherwise it assembles the final estimate, placing `_count_data_points`
into the confidence and building the provenance list (the source's
`list(set(...))` has unspecified order; embedded as occurrence order). -/
def analyze_salary (state : SalaryEstimationState) (analysis : SalaryAnalysis) :
    Except String AnalyzeUpdate :=
  match state.profile with
  | none => Except.error "No profile data available"
  | some _ =>
    let data_points := count_data_points state
    let salary_estimate : SalaryRange :=
      ⟨"USD".toList, analysis.salary_min, analysis.salary_max, analysis.salary_median⟩
    let confidence : ConfidenceInfo :=
      ⟨analysis.confidence_score, analysis.confidence_level, data_points,
       analysis.adjustments⟩
    let sources :=
      (if (state.kb_matches.getD []).isEmpty then [] else ["internal_kb".toList]) ++
        (((state.search_results.getD []).map (fun r => r.source)).dedup.take 5)
    Except.ok ⟨salary_estimate, confidence, sources, analysis.reasoning,
      analysis.adjustments⟩

/-! ## Supporting lemmas -/

/-- The extractor's per-hit figure list is duplicate-free
(`list(set(salaries))`). -/
theorem extract_salary_mentions_nodup (text : Str) :
    (extract_salary_mentions text).Nodup :=
  List.nodup_dedup _

/-! ## C9 -/

/-- C9: for every pipeline state in which the profile is absent, the
synthesis stage raises (`ValueError("No profile data available")`,
embedded as `Except.error`) and never produces an estimate. -/
theorem analyze_no_profile_spec :
    ∀ (state : SalaryEstimationState) (analysis : SalaryAnalysis),
      state.profile = none →
      analyze_salary state analysis = Except.error "No profile data available" ∧
        ∀ out, analyze_salary state analysis ≠ Except.ok out := by
  intro state analysis h
  have he : analyze_salary state analysis = Except.error "No profile data available" := by
    unfold analyze_salary
    rw [h]
  refine ⟨he, ?_⟩
  intro out hc
  rw [he] at hc
  exact Except.noConfusion hc

/-- The initial pipeline state: nothing computed yet. -/
def emptyState : SalaryEstimationState := ⟨none, none, none, none, none⟩

/-- An arbitrary concrete inference-service reply. -/
def dummyAnalysis : SalaryAnalysis := ⟨0, 0, 0, 0, [], [], []⟩

/-- Witness for C9 at the empty state. -/
theorem analyze_no_profile_witness :
    emptyState.profile = none ∧
      analyze_salary emptyState dummyAnalysis =
        Except.error "No profile data available" :=
  ⟨rfl, (analyze_no_profile_spec emptyState dummyAnalysis rfl).1⟩

/-! ## C7 -/

/-- C7: every figure the extractor emits lies in the plausibility band
[30000, 2000000]; no out-of-band number ever reaches a search hit's
salary-mention list. -/
theorem extract_salary_mentions_band :
    ∀ (text : Str) (n : ℕ), n ∈ extract_salary_mentions text →
      30000 ≤ n ∧ n ≤ 2000000 := by
  intro text n hn
  unfold extract_salary_mentions at hn
  rw [List.mem_dedup] at hn
  simp only [List.mem_flatten, List.mem_map] at hn
  obtain ⟨_, ⟨m, _, rfl⟩, hnm⟩ := hn
  unfold processMatch at hnm
  simp only [List.mem_filterMap] at hnm
  obtain ⟨run, _, hsome⟩ := hnm
  cases hp : parseNum run with
  | none => rw [hp] at hsome; exact Option.noConfusion hsome
  | some k =>
    rw [hp] at hsome
    simp only at hsome
    split at hsome <;> split at hsome <;>
      first
        | (injection hsome with h2; subst h2; assumption)
        | exact Option.noConfusion hsome

/-- Witness for C7 on a concrete snippet. -/
theorem extract_salary_mentions_band_witness :
    100000 ∈ extract_salary_mentions "$100,000".toList ∧
      30000 ≤ 100000 ∧ 100000 ≤ 2000000 :=
  ⟨by decide, extract_salary_mentions_band "$100,000".toList 100000 (by decide)⟩

/-! ## C5 -/

/-- C5: the relevance score is exactly 0.5 plus the four additive boosts
(trusted domain +0.2, salary keyword +0.15, recent year +0.1, currency
amount +0.05), capped at 1.0; it is deterministic in (title, snippet,
link, query) with no hidden state (in particular the unused query argument
never changes it), and always lies in [0.5, 1]. -/
theorem calculate_relevance_spec :
    ∀ t s l q q' : Str,
      calculate_relevance t s l q =
          min (0.5 + (if trustedDomainHit l then (0.2 : ℚ) else 0) +
            (if salaryKeywordHit t s then 0.15 else 0) +
            (if recentYearHit s then 0.1 else 0) +
            (if currencyAmountHit s then 0.05 else 0)) 1 ∧
        calculate_relevance t s l q = calculate_relevance t s l q' ∧
        0.5 ≤ calculate_relevance t s l q ∧ calculate_relevance t s l q ≤ 1 := by
  intro t s l q q'
  refine ⟨?_, rfl, ?_, ?_⟩
  · unfold calculate_relevance
    split_ifs <;> norm_num
  · unfold calculate_relevance
    split_ifs <;> norm_num
  · unfold calculate_relevance
    split_ifs <;> norm_num

/-! ## C6 -/

/-- C6: within a regex match that contains a "k" shorthand, each parsed
base number is multiplied by 1000 exactly when it is below 1000 (then
band-filtered); consequently "$150k" and "salary: 150000" extract the
same single figure 150000. -/
theorem k_suffix_spec :
    (∀ m : Str, hasKChar m = true →
        processMatch m =
          ((numRuns m).filterMap parseNum).filterMap fun n =>
            let n2 := if n < 1000 then n * 1000 else n
            if 30000 ≤ n2 ∧ n2 ≤ 2000000 then some n2 else none) ∧
      extract_salary_mentions "$150k".toList = [150000] ∧
      extract_salary_mentions "salary: 150000".toList = [150000] := by
  refine ⟨?_, by decide, by decide⟩
  intro m hk
  unfold processMatch
  rw [List.filterMap_filterMap]
  apply List.filterMap_congr
  intro run _
  cases parseNum run with
  | none => rfl
  | some n => simp [hk, Option.bind]

/-! ## C1 -/

/-- C1: whenever synthesis succeeds and every hit's salary-mention list is
duplicate-free (which `extract_salary_mentions_nodup` guarantees for
states produced by the pipeline), the data-point count placed in the final
estimate's confidence is the benchmark-match count plus the total number
of distinct salary figures extracted in the search hits. -/
theorem analyze_data_points_spec :
    ∀ (state : SalaryEstimationState) (analysis : SalaryAnalysis)
      (out : AnalyzeUpdate),
      analyze_salary state analysis = Except.ok out →
      (∀ r ∈ state.search_results.getD [], r.salary_mentions.Nodup) →
      out.confidence.data_points =
        (state.kb_matches.getD []).length +
          ((state.search_results.getD []).map
            (fun r => r.salary_mentions.toFinset.card)).sum := by
  intro state analysis out hok hnd
  have hout : out.confidence.data_points = count_data_points state := by
    unfold analyze_salary at hok
    cases hp : state.profile with
    | none => rw [hp] at hok; exact Except.noConfusion hok
    | some p =>
      rw [hp] at hok
      simp only at hok
      injection hok with h
      rw [← h]
  rw [hout]
  unfold count_data_points
  congr 1
  apply congrArg
  apply List.map_congr_left
  intro r hr
  exact (List.toFinset_card_of_nodup (hnd r hr)).symm

/-- A concrete state at the synthesis stage matching end-to-end
scenario 2: 0 benchmark matches, 3 search hits contributing 5 distinct
salary figures over 2 distinct domains. -/
def scenario2State : SalaryEstimationState :=
  ⟨some "raw".toList,
   some ⟨"Engineer".toList, "Acme".toList, "unknown".toList, 4,
     "Austin".toList, [], [], [], "mid".toList⟩,
   some ["q1".toList],
   some
     [⟨"q1".toList, "glassdoor.com".toList, "t1".toList, "s1".toList,
        [100000, 150000], 0.85⟩,
      ⟨"q1".toList, "levels.fyi".toList, "t2".toList, "s2".toList,
        [120000, 180000], 0.8⟩,
      ⟨"q1".toList, "glassdoor.com".toList, "t3".toList, "s3".toList,
        [200000], 0.7⟩],
   some []⟩

/-- The synthesis output on `scenario2State`. -/
def scenario2Out : AnalyzeUpdate :=
  (analyze_salary scenario2State dummyAnalysis).toOption.getD
    ⟨⟨[], 0, 0, 0⟩, ⟨0, [], 0, []⟩, [], [], []⟩

/-- Witness for C1: on scenario 2 the count is 0 + 5 = 5. -/
theorem analyze_data_points_witness :
    analyze_salary scenario2State dummyAnalysis = Except.ok scenario2Out ∧
      scenario2Out.confidence.data_points = 5 := by
  refine ⟨rfl, ?_⟩
  have h := analyze_data_points_spec scenario2State dummyAnalysis scenario2Out
    rfl (by decide)
  rw [h]
  decide

/-! ## Knowledge-base lemmas -/

/-- Out-of-band records are skipped by the metadata loop. -/
theorem buildMatches_skip {yoe : ℚ} {m : BenchmarkMetadata}
    (metas : List BenchmarkMetadata) (h : inBandB yoe m = false) :
    buildMatches yoe (m :: metas) = buildMatches yoe metas := by
  conv_lhs => rw [buildMatches]
  rw [h]
  simp

/-- The metadata loop only filters: it equals itself on the pre-filtered
list. -/
theorem buildMatches_filter_eq (yoe : ℚ) (metas : List BenchmarkMetadata) :
    buildMatches yoe metas =
      buildMatches yoe (metas.filter (fun m => inBandB yoe m)) := by
  induction metas with
  | nil => rfl
  | cons m rest ih =>
    cases h : inBandB yoe m with
    | true =>
      rw [List.filter_cons_of_pos h]
      unfold buildMatches
      rw [h, ih]
    | false =>
      rw [List.filter_cons_of_neg (by simp [h]), buildMatches_skip rest h, ih]

/-- Every benchmark of a successful metadata loop is the conversion of
some in-band metadata record of the input. -/
theorem buildMatches_mem {yoe : ℚ} :
    ∀ {metas : List BenchmarkMetadata} {bs : List SalaryBenchmark},
      buildMatches yoe metas = Except.ok bs →
      ∀ b ∈ bs, ∃ m ∈ metas, inBandB yoe m = true ∧ mkBenchmark m = Except.ok b := by
  intro metas
  induction metas with
  | nil =>
    intro bs h b hb
    unfold buildMatches at h
    injection h with h
    subst h
    exact absurd hb (List.not_mem_nil b)
  | cons m rest ih =>
    intro bs h b hb
    unfold buildMatches at h
    cases hband : inBandB yoe m with
    | false =>
      rw [hband] at h
      simp only [Bool.false_eq_true, if_false] at h
      obtain ⟨m', hm', hrest⟩ := ih h b hb
      exact ⟨m', List.mem_cons_of_mem m hm', hrest⟩
    | true =>
      rw [hband] at h
      simp only [if_true] at h
      cases hmk : mkBenchmark m with
      | error e => rw [hmk] at h; exact Except.noConfusion h
      | ok b0 =>
        rw [hmk] at h
        cases hr : buildMatches yoe rest with
        | error e => rw [hr] at h; exact Except.noConfusion h
        | ok bs' =>
          rw [hr] at h
          injection h with h
          subst h
          rcases List.mem_cons.mp hb with rfl | hb'
          · exact ⟨m, List.mem_cons_self m rest, hband, hmk⟩
          · obtain ⟨m', hm', hrest⟩ := ih hr b hb'
            exact ⟨m', List.mem_cons_of_mem m hm', hrest⟩

/-- If the metadata loop succeeds, every in-band record of its input
converts successfully. -/
theorem buildMatches_all_ok {yoe : ℚ} :
    ∀ {metas : List BenchmarkMetadata} {bs : List SalaryBenchmark},
      buildMatches yoe metas = Except.ok bs →
      ∀ m ∈ metas, inBandB yoe m = true → ∃ b, mkBenchmark m = Except.ok b := by
  intro metas
  induction metas with
  | nil => intro bs _ m hm; exact absurd hm (List.not_mem_nil m)
  | cons m0 rest ih =>
    intro bs h m hm hband
    unfold buildMatches at h
    cases hb0 : inBandB yoe m0 with
    | false =>
      rw [hb0] at h
      simp only [Bool.false_eq_true, if_false] at h
      rcases List.mem_cons.mp hm with rfl | hm'
      · rw [hband] at hb0; exact Bool.noConfusion hb0
      · exact ih h m hm' hband
    | true =>
      rw [hb0] at h
      simp only [if_true] at h
      cases hmk : mkBenchmark m0 with
      | error e => rw [hmk] at h; exact Except.noConfusion h
      | ok b0 =>
        rw [hmk] at h
        cases hr : buildMatches yoe rest with
        | error e => rw [hr] at h; exact Except.noConfusion h
        | ok bs' =>
          rcases List.mem_cons.mp hm with rfl | hm'
          · exact ⟨b0, hmk⟩
          · exact ih hr m hm' hband

/-- On an all-in-band metadata list a successful loop commutes with
truncation. -/
theorem buildMatches_take {yoe : ℚ} :
    ∀ {fl : List BenchmarkMetadata} {bs : List SalaryBenchmark},
      (∀ m ∈ fl, inBandB yoe m = true) →
      buildMatches yoe fl = Except.ok bs →
      ∀ n, buildMatches yoe (fl.take n) = Except.ok (bs.take n) := by
  intro fl
  induction fl with
  | nil =>
    intro bs _ h n
    unfold buildMatches at h
    injection h with h
    subst h
    simp [buildMatches]
  | cons m rest ih =>
    intro bs hall h n
    have hband : inBandB yoe m = true := hall m (List.mem_cons_self m rest)
    unfold buildMatches at h
    rw [hband] at h
    simp only [if_true] at h
    cases hmk : mkBenchmark m with
    | error e => rw [hmk] at h; exact Except.noConfusion h
    | ok b0 =>
      rw [hmk] at h
      cases hr : buildMatches yoe rest with
      | error e => rw [hr] at h; exact Except.noConfusion h
      | ok bs' =>
        rw [hr] at h
        injection h with h
        subst h
        cases n with
        | zero => simp [buildMatches]
        | succ k =>
          have hrest : ∀ m' ∈ rest, inBandB yoe m' = true := fun m' hm' =>
            hall m' (List.mem_cons_of_mem m hm')
          have := ih hrest hr k
          rw [List.take_succ_cons, List.take_succ_cons]
          unfold buildMatches
          rw [hband]
          simp only [if_true]
          rw [hmk, this]

/-- The experience fields of a successfully validated benchmark are the
metadata values with the pydantic defaults 0 and 30. -/
theorem mkBenchmark_yoe {m : BenchmarkMetadata} {b : SalaryBenchmark}
    (h : mkBenchmark m = Except.ok b) :
    b.years_of_experience_min = m.years_of_experience_min.getD 0 ∧
      b.years_of_experience_max = m.years_of_experience_max.getD 30 := by
  unfold mkBenchmark at h
  split at h
  · injection h with h
    subst h
    exact ⟨rfl, rfl⟩
  · exact Except.noConfusion h

/-! ## C2 -/

/-- C2: the matcher's experience filter keeps a metadata record exactly
when `yoe_min - 2 ≤ years_of_experience ≤ yoe_max + 2` (both bounds
inclusive, with the metadata defaults), and every benchmark in a
successful lookup result satisfies the band on its own experience
fields. -/
theorem kb_band_spec :
    (∀ (yoe : ℚ) (metas : List BenchmarkMetadata) (m : BenchmarkMetadata),
        m ∈ metas.filter (fun m => inBandB yoe m) ↔
          m ∈ metas ∧
            ((m.years_of_experience_min.getD 0 : ℤ) : ℚ) - 2 ≤ yoe ∧
            yoe ≤ ((m.years_of_experience_max.getD 30 : ℤ) : ℚ) + 2) ∧
      ∀ (p : ProfileData) (metas : List BenchmarkMetadata)
        (out : List SalaryBenchmark),
        lookup_knowledge_base (some p) metas = Except.ok out →
        ∀ b ∈ out,
          ((b.years_of_experience_min : ℤ) : ℚ) - 2 ≤ p.years_of_experience ∧
            p.years_of_experience ≤ ((b.years_of_experience_max : ℤ) : ℚ) + 2 := by
  constructor
  · intro yoe metas m
    rw [List.mem_filter]
    unfold inBandB
    rw [decide_eq_true_eq]
  · intro p metas out hok b hb
    unfold lookup_knowledge_base at hok
    simp only at hok
    cases hbm : buildMatches p.years_of_experience metas with
    | error e => rw [hbm] at hok; exact Except.noConfusion hok
    | ok bs =>
      rw [hbm] at hok
      injection hok with hok
      subst hok
      obtain ⟨m, _, hband, hmk⟩ :=
        buildMatches_mem hbm b (List.mem_of_mem_take hb)
      unfold inBandB at hband
      rw [decide_eq_true_eq] at hband
      obtain ⟨h1, h2⟩ := mkBenchmark_yoe hmk
      rw [h1, h2]
      exact hband

/-- A concrete profile with 7 years of experience. -/
def profile7 : ProfileData :=
  ⟨"Senior Software Engineer".toList, "Google".toList, "faang".toList, 7,
   "San Francisco, CA".toList, [], [], "Technology".toList, "senior".toList⟩

/-- A complete in-band metadata record (the mocked record of
`tests/test_graph.py`). -/
def metaGood : BenchmarkMetadata :=
  ⟨some "Senior Software Engineer".toList, some "San Francisco, CA".toList,
   some "faang".toList, some 5, some 10, some 280000, some 400000,
   some 340000, some "USD".toList, some "internal_kb".toList, some 2024⟩

/-- The benchmark `metaGood` validates to. -/
def benchGood : SalaryBenchmark :=
  ⟨"Senior Software Engineer".toList, "San Francisco, CA".toList,
   "faang".toList, 5, 10, 280000, 400000, 340000, "USD".toList,
   "internal_kb".toList, 2024⟩

/-- The test-suite record passes the filter for 7 years of experience. -/
theorem inBandB_metaGood : inBandB profile7.years_of_experience metaGood = true := by
  unfold inBandB
  rw [decide_eq_true_eq]
  norm_num [metaGood, profile7]

/-- The concrete lookup on the test-suite record. -/
theorem lookup_metaGood :
    lookup_knowledge_base (some profile7) [metaGood] = Except.ok [benchGood] := by
  unfold lookup_knowledge_base
  simp only [buildMatches, inBandB_metaGood, eq_self_iff_true, if_true]
  rfl

/-- Witness for C2 on the concrete test-suite record. -/
theorem kb_band_witness :
    lookup_knowledge_base (some profile7) [metaGood] = Except.ok [benchGood] ∧
      ((benchGood.years_of_experience_min : ℤ) : ℚ) - 2 ≤
          profile7.years_of_experience ∧
        profile7.years_of_experience ≤
          ((benchGood.years_of_experience_max : ℤ) : ℚ) + 2 :=
  ⟨lookup_metaGood,
   kb_band_spec.2 profile7 [metaGood] [benchGood] lookup_metaGood benchGood
     (List.mem_singleton.mpr rfl)⟩

/-! ## C8 -/

/-- C8: a successful lookup returns at most 5 records, and the result is
exactly the conversion of the first 5 filter-survivors in the similarity
index's order (truncation without re-sorting; the truncated survivor list
is a sublist of the index's reply). -/
theorem kb_truncation_spec :
    ∀ (p : ProfileData) (metas : List BenchmarkMetadata)
      (out : List SalaryBenchmark),
      lookup_knowledge_base (some p) metas = Except.ok out →
      out.length ≤ 5 ∧
        buildMatches p.years_of_experience
            ((metas.filter
              (fun m => inBandB p.years_of_experience m)).take 5) =
          Except.ok out ∧
        ((metas.filter (fun m => inBandB p.years_of_experience m)).take 5).Sublist
          metas := by
  intro p metas out hok
  unfold lookup_knowledge_base at hok
  simp only at hok
  cases hbm : buildMatches p.years_of_experience metas with
  | error e => rw [hbm] at hok; exact Except.noConfusion hok
  | ok bs =>
    rw [hbm] at hok
    injection hok with hok
    subst hok
    refine ⟨List.length_take_le 5 bs, ?_, ?_⟩
    · have hfe := buildMatches_filter_eq p.years_of_experience metas
      rw [hfe] at hbm
      exact buildMatches_take (fun m hm => (List.mem_filter.mp hm).2) hbm 5
    · exact (List.take_sublist 5 _).trans (List.filter_sublist metas)

/-- A complete in-band metadata record carrying role name `r`. -/
def meta7 (r : String) : BenchmarkMetadata :=
  ⟨some r.toList, some "SF".toList, some "faang".toList, some 5, some 10,
   some 280000, some 400000, some 340000, some "USD".toList,
   some "internal_kb".toList, some 2024⟩

/-- Seven distinct complete in-band metadata records. -/
def metas7 : List BenchmarkMetadata :=
  ["r1", "r2", "r3", "r4", "r5", "r6", "r7"].map meta7

/-- The benchmark `meta7 r` validates to. -/
def bench7 (r : String) : SalaryBenchmark :=
  ⟨r.toList, "SF".toList, "faang".toList, 5, 10, 280000, 400000, 340000,
   "USD".toList, "internal_kb".toList, 2024⟩

/-- The lookup result on `metas7`: the first five records, in order. -/
def out7 : List SalaryBenchmark :=
  ["r1", "r2", "r3", "r4", "r5"].map bench7

/-- Each of the seven records passes the filter for 7 years of
experience. -/
theorem inBandB_meta7 (r : String) :
    inBandB profile7.years_of_experience (meta7 r) = true := by
  unfold inBandB
  rw [decide_eq_true_eq]
  norm_num [meta7, profile7]

/-- Witness for C8: seven in-band survivors are truncated to the first
five, in order. -/
theorem kb_truncation_witness :
    out7.length ≤ 5 ∧
      buildMatches profile7.years_of_experience
          ((metas7.filter
            (fun m => inBandB profile7.years_of_experience m)).take 5) =
        Except.ok out7 ∧
      ((metas7.filter
        (fun m => inBandB profile7.years_of_experience m)).take 5).Sublist
        metas7 :=
  kb_truncation_spec profile7 metas7 out7 (by
    unfold lookup_knowledge_base
    simp only [metas7, List.map, buildMatches, inBandB_meta7,
      eq_self_iff_true, if_true]
    rfl)

/-! ## C4 (corrected) -/

/-- A metadata record passing the experience filter but missing the
required `role` field. -/
def metaNoRole : BenchmarkMetadata :=
  ⟨none, some "SF".toList, some "faang".toList, some 5, some 10,
   some 280000, some 400000, some 340000, some "USD".toList,
   some "internal_kb".toList, some 2024⟩

/-- Counterexample to C4: a similarity-index record whose metadata lacks
the required `role` field is not skipped — if it passes the experience
filter, `SalaryBenchmark(**metadata)` raises and the lookup fails. -/
theorem inBandB_metaNoRole :
    inBandB profile7.years_of_experience metaNoRole = true := by
  unfold inBandB
  rw [decide_eq_true_eq]
  norm_num [metaNoRole, profile7]

/-- Counterexample computation for C4 continued: the concrete lookup
fails. -/
theorem kb_malformed_cex :
    inBandB profile7.years_of_experience metaNoRole = true ∧
      lookup_knowledge_base (some profile7) [metaNoRole] =
        Except.error "validation error: missing required field" := by
  refine ⟨inBandB_metaNoRole, ?_⟩
  unfold lookup_knowledge_base
  simp only [buildMatches, inBandB_metaNoRole, eq_self_iff_true, if_true]
  rfl

/-- C4 (amended): a record missing only defaulted fields validates with
the defaults and is kept subject to the filter; a record missing a
required field fails validation, and if it also passes the experience
filter the whole lookup fails; a record that fails the experience filter
is skipped whether or not it is malformed. -/
theorem kb_malformed_amended :
    (∀ m : BenchmarkMetadata, requiredPresent m = true →
        ∃ b, mkBenchmark m = Except.ok b) ∧
      (∀ m : BenchmarkMetadata, requiredPresent m = false →
        ∀ b, mkBenchmark m ≠ Except.ok b) ∧
      (∀ (p : ProfileData) (metas : List BenchmarkMetadata)
        (m : BenchmarkMetadata),
        m ∈ metas → inBandB p.years_of_experience m = true →
        requiredPresent m = false →
        ∀ out, lookup_knowledge_base (some p) metas ≠ Except.ok out) ∧
      ∀ (p : ProfileData) (m : BenchmarkMetadata)
        (metas : List BenchmarkMetadata),
        inBandB p.years_of_experience m = false →
        lookup_knowledge_base (some p) (m :: metas) =
          lookup_knowledge_base (some p) metas := by
  have hreq : ∀ m : BenchmarkMetadata, requiredPresent m = true →
      ∃ b, mkBenchmark m = Except.ok b := by
    intro m h
    unfold requiredPresent at h
    simp only [Bool.and_eq_true, Option.isSome_iff_exists] at h
    obtain ⟨⟨⟨⟨⟨r, hr⟩, ⟨loc, hloc⟩⟩, ⟨smin, hsmin⟩⟩, ⟨smax, hsmax⟩⟩, ⟨smed, hsmed⟩⟩ := h
    refine ⟨⟨r, loc, m.company_tier.getD "unknown".toList,
      m.years_of_experience_min.getD 0, m.years_of_experience_max.getD 30,
      smin, smax, smed, m.currency.getD "USD".toList,
      m.source.getD "internal_kb".toList, m.year.getD 2024⟩, ?_⟩
    unfold mkBenchmark
    rw [hr, hloc, hsmin, hsmax, hsmed]
  have hreqn : ∀ m : BenchmarkMetadata, requiredPresent m = false →
      ∀ b, mkBenchmark m ≠ Except.ok b := by
    intro m h b hc
    unfold mkBenchmark at hc
    split at hc
    · rename_i hrole hloc hsmin hsmax hsmed
      unfold requiredPresent at h
      rw [hrole, hloc, hsmin, hsmax, hsmed] at h
      simp at h
    · exact Except.noConfusion hc
  refine ⟨hreq, hreqn, ?_, ?_⟩
  · intro p metas m hm hband hmreq out hc
    unfold lookup_knowledge_base at hc
    simp only at hc
    cases hbm : buildMatches p.years_of_experience metas with
    | error e => rw [hbm] at hc; exact Except.noConfusion hc
    | ok bs =>
      obtain ⟨b, hb⟩ := buildMatches_all_ok hbm m hm hband
      exact hreqn m hmreq b hb
  · intro p m metas hband
    unfold lookup_knowledge_base
    simp only
    rw [buildMatches_skip metas hband]

/-- Witness for the amended C4: the malformed in-band record makes the
concrete lookup fail, and a complete record validates. -/
theorem kb_malformed_amended_witness :
    (¬ lookup_knowledge_base (some profile7) [metaNoRole] =
        Except.ok []) ∧
      ∃ b, mkBenchmark metaGood = Except.ok b :=
  ⟨kb_malformed_amended.2.2.1 profile7 [metaNoRole] metaNoRole
      (List.mem_singleton.mpr rfl) inBandB_metaNoRole rfl [],
   kb_malformed_amended.1 metaGood rfl⟩

/-! ## C10 (corrected) -/

/-- A metadata record lacking `years_of_experience_min` but carrying
`years_of_experience_max = 5`. -/
def metaNoMin : BenchmarkMetadata :=
  ⟨some "r".toList, some "SF".toList, some "faang".toList, none, some 5,
   some 280000, some 400000, some 340000, some "USD".toList,
   some "internal_kb".toList, some 2024⟩

/-- A concrete profile with 10 years of experience. -/
def profile10 : ProfileData :=
  ⟨"Engineer".toList, "Acme".toList, "unknown".toList, 10,
   "Austin".toList, [], [], [], "mid".toList⟩

/-- Counterexample to C10: a record lacking only the min field (max
present and small) is rejected by the filter although the profile has
0 ≤ years_of_experience ≤ 32. -/
theorem kb_defaults_cex :
    metaNoMin.years_of_experience_min = none ∧
      (0 : ℚ) ≤ profile10.years_of_experience ∧
      profile10.years_of_experience ≤ 32 ∧
      lookup_knowledge_base (some profile10) [metaNoMin] = Except.ok [] := by
  have hband : inBandB profile10.years_of_experience metaNoMin = false := by
    unfold inBandB
    rw [decide_eq_false_iff_not]
    intro h
    have h2 := h.2
    norm_num [metaNoMin, profile10] at h2
  refine ⟨rfl, by norm_num [profile10], by norm_num [profile10], ?_⟩
  unfold lookup_knowledge_base
  simp only [buildMatches, hband, Bool.false_eq_true, if_false]
  rfl

/-- C10 (amended): the filter substitutes default 0 for a missing
`years_of_experience_min` and 30 for a missing `years_of_experience_max`;
a record lacking BOTH fields passes the filter for every profile with
0 ≤ years_of_experience ≤ 32, and whenever the min field is missing the
filter's lower bound is satisfied for every non-negative
years_of_experience; a record lacking only one field remains constrained
by the bound that is present. -/
theorem kb_defaults_amended :
    (∀ (yoe : ℚ) (m : BenchmarkMetadata),
        m.years_of_experience_min = none → m.years_of_experience_max = none →
        0 ≤ yoe → yoe ≤ 32 → inBandB yoe m = true) ∧
      ∀ (yoe : ℚ) (m : BenchmarkMetadata),
        m.years_of_experience_min = none → 0 ≤ yoe →
        ((m.years_of_experience_min.getD 0 : ℤ) : ℚ) - 2 ≤ yoe := by
  constructor
  · intro yoe m h1 h2 h3 h4
    unfold inBandB
    rw [h1, h2, decide_eq_true_eq]
    constructor
    · push_cast [Option.getD]
      linarith
    · push_cast [Option.getD]
      linarith
  · intro yoe m h1 h3
    rw [h1]
    push_cast [Option.getD]
    linarith

/-- A metadata record lacking both experience fields. -/
def metaNoBoth : BenchmarkMetadata :=
  ⟨some "r".toList, some "SF".toList, some "faang".toList, none, none,
   some 280000, some 400000, some 340000, some "USD".toList,
   some "internal_kb".toList, some 2024⟩

/-- Witness for the amended C10 at years_of_experience = 31. -/
theorem kb_defaults_amended_witness :
    inBandB 31 metaNoBoth = true ∧
      ((metaNoBoth.years_of_experience_min.getD 0 : ℤ) : ℚ) - 2 ≤ 31 :=
  ⟨kb_defaults_amended.1 31 metaNoBoth rfl rfl (by norm_num) (by norm_num),
   kb_defaults_amended.2 31 metaNoBoth rfl (by norm_num)⟩

/-! ## Web-search selection lemmas -/

/-- A default hit for positional access. -/
def dummyHit : SearchResult := ⟨[], [], [], [], [], 0⟩

/-- Sorted by relevance score, descending. -/
abbrev SortedDesc (l : List SearchResult) : Prop :=
  l.Pairwise (fun a b => b.relevance_score ≤ a.relevance_score)

/-- From the 6th entry on, no source repeats an earlier one. -/
abbrev NoDupSourceFrom5 (out : List SearchResult) : Prop :=
  ∀ i j, 5 ≤ i → j < i → i < out.length →
    (out.getD i dummyHit).source ≠ (out.getD j dummyHit).source

theorem mem_insertDesc {x r : SearchResult} {l : List SearchResult} :
    x ∈ insertDesc r l ↔ x = r ∨ x ∈ l := by
  induction l with
  | nil => simp [insertDesc]
  | cons y ys ih =>
    unfold insertDesc
    by_cases h : y.relevance_score < r.relevance_score
    · simp [h]
    · simp only [h, if_false, List.mem_cons, ih]
      tauto

theorem sortedDesc_insertDesc {l : List SearchResult} (r : SearchResult)
    (h : SortedDesc l) : SortedDesc (insertDesc r l) := by
  induction l with
  | nil => exact List.pairwise_singleton _ _
  | cons y ys ih =>
    replace h := List.pairwise_cons.mp h
    unfold insertDesc
    by_cases hlt : y.relevance_score < r.relevance_score
    · rw [if_pos hlt]
      refine List.Pairwise.cons ?_ (List.Pairwise.cons h.1 h.2)
      intro b hb
      rcases List.mem_cons.mp hb with rfl | hb'
      · exact le_of_lt hlt
      · exact le_trans (h.1 b hb') (le_of_lt hlt)
    · rw [if_neg hlt]
      refine List.Pairwise.cons ?_ (ih h.2)
      intro b hb
      rcases mem_insertDesc.mp hb with rfl | hb'
      · exact le_of_not_lt hlt
      · exact h.1 b hb'

theorem sortedDesc_foldl :
    ∀ (l acc : List SearchResult), SortedDesc acc →
      SortedDesc (l.foldl (fun acc r => insertDesc r acc) acc) := by
  intro l
  induction l with
  | nil => intro acc h; exact h
  | cons r rest ih => intro acc h; exact ih _ (sortedDesc_insertDesc r h)

theorem sortedDesc_sort (l : List SearchResult) :
    SortedDesc (sortByRelevanceDesc l) :=
  sortedDesc_foldl l [] List.Pairwise.nil

theorem filter_eq_nil_of_lt {q : ℚ} {l : List SearchResult}
    (hlt : ∀ y ∈ l, y.relevance_score < q) :
    l.filter (fun x => decide (x.relevance_score = q)) = [] := by
  rw [List.filter_eq_nil_iff]
  intro a ha
  simp only [decide_eq_true_eq]
  exact ne_of_lt (hlt a ha)

theorem insertDesc_filter (q : ℚ) (r : SearchResult) {l : List SearchResult}
    (h : SortedDesc l) :
    (insertDesc r l).filter (fun x => decide (x.relevance_score = q)) =
      if r.relevance_score = q
      then l.filter (fun x => decide (x.relevance_score = q)) ++ [r]
      else l.filter (fun x => decide (x.relevance_score = q)) := by
  induction l with
  | nil =>
    by_cases hr : r.relevance_score = q
    · simp [insertDesc, hr]
    · simp [insertDesc, hr]
  | cons y ys ih =>
    replace h := List.pairwise_cons.mp h
    unfold insertDesc
    by_cases hlt : y.relevance_score < r.relevance_score
    · rw [if_pos hlt, List.filter_cons]
      by_cases hr : r.relevance_score = q
      · have hnil : (y :: ys).filter (fun x => decide (x.relevance_score = q)) = [] := by
          apply filter_eq_nil_of_lt
          intro z hz
          rcases List.mem_cons.mp hz with rfl | hz'
          · exact hr ▸ hlt
          · exact lt_of_le_of_lt (h.1 z hz') (hr ▸ hlt)
        simp [hr, hnil]
      · simp [hr]
    · rw [if_neg hlt, List.filter_cons, List.filter_cons, ih h.2]
      by_cases hy : y.relevance_score = q <;>
        by_cases hr : r.relevance_score = q <;> simp [hy, hr]

theorem foldl_insert_filter (q : ℚ) :
    ∀ (l acc : List SearchResult), SortedDesc acc →
      (l.foldl (fun acc r => insertDesc r acc) acc).filter
          (fun x => decide (x.relevance_score = q)) =
        acc.filter (fun x => decide (x.relevance_score = q)) ++
          l.filter (fun x => decide (x.relevance_score = q)) := by
  intro l
  induction l with
  | nil => intro acc _; simp
  | cons r rest ih =>
    intro acc h
    rw [List.foldl_cons, ih _ (sortedDesc_insertDesc r h), insertDesc_filter q r h,
      List.filter_cons]
    by_cases hr : r.relevance_score = q <;> simp [hr]

theorem sort_stable (l : List SearchResult) (q : ℚ) :
    (sortByRelevanceDesc l).filter (fun x => decide (x.relevance_score = q)) =
      l.filter (fun x => decide (x.relevance_score = q)) := by
  unfold sortByRelevanceDesc
  rw [foldl_insert_filter q l [] List.Pairwise.nil]
  simp

theorem selectDiverse_length :
    ∀ (pending acc : List SearchResult) (seen : List Str),
      acc.length ≤ 15 → (selectDiverse pending acc seen).length ≤ 15 := by
  intro pending
  induction pending with
  | nil => intro acc seen h; exact h
  | cons r rest ih =>
    intro acc seen h
    unfold selectDiverse
    by_cases h15 : 15 ≤ acc.length
    · rw [if_pos h15]; exact h
    · rw [if_neg h15]
      by_cases hsel : ¬ r.source ∈ seen ∨ acc.length < 5
      · rw [if_pos hsel]
        apply ih
        rw [List.length_append]
        simp only [List.length_singleton]
        omega
      · rw [if_neg hsel]; exact ih _ _ h

theorem selectDiverse_append :
    ∀ (pending acc : List SearchResult) (seen : List Str),
      ∃ s, selectDiverse pending acc seen = acc ++ s ∧ s.Sublist pending := by
  intro pending
  induction pending with
  | nil => intro acc seen; exact ⟨[], by simp [selectDiverse], List.nil_sublist _⟩
  | cons r rest ih =>
    intro acc seen
    unfold selectDiverse
    by_cases h15 : 15 ≤ acc.length
    · rw [if_pos h15]; exact ⟨[], by simp, List.nil_sublist _⟩
    · rw [if_neg h15]
      by_cases hsel : ¬ r.source ∈ seen ∨ acc.length < 5
      · rw [if_pos hsel]
        obtain ⟨s, h1, h2⟩ := ih (acc ++ [r]) (r.source :: seen)
        exact ⟨r :: s, by rw [h1, List.append_assoc]; rfl, h2.cons₂ r⟩
      · rw [if_neg hsel]
        obtain ⟨s, h1, h2⟩ := ih acc seen
        exact ⟨s, h1, h2.cons r⟩

theorem selectDiverse_diverse :
    ∀ (pending acc : List SearchResult) (seen : List Str),
      (∀ x ∈ acc, x.source ∈ seen) → NoDupSourceFrom5 acc →
      NoDupSourceFrom5 (selectDiverse pending acc seen) := by
  intro pending
  induction pending with
  | nil => intro acc seen _ h; exact h
  | cons r rest ih =>
    intro acc seen hseen hdiv
    unfold selectDiverse
    by_cases h15 : 15 ≤ acc.length
    · rw [if_pos h15]; exact hdiv
    · rw [if_neg h15]
      by_cases hsel : ¬ r.source ∈ seen ∨ acc.length < 5
      · rw [if_pos hsel]
        apply ih
        · intro x hx
          rcases List.mem_append.mp hx with hx' | hx'
          · exact List.mem_cons_of_mem _ (hseen x hx')
          · rw [List.mem_singleton.mp hx']
            exact List.mem_cons_self _ _
        · intro i j h5 hji hi
          rw [List.length_append, List.length_singleton] at hi
          by_cases hia : i < acc.length
          · rw [List.getD_append _ _ _ _ hia,
              List.getD_append _ _ _ _ (lt_trans hji hia)]
            exact hdiv i j h5 hji hia
          · have hieq : i = acc.length := by omega
            have hja : j < acc.length := by omega
            rw [List.getD_append _ _ _ _ hja]
            subst hieq
            have hr : (acc ++ [r]).getD acc.length dummyHit = r := by
              rw [List.getD_append_right _ _ _ _ (le_refl _)]
              simp
            rw [hr]
            have hns : ¬ r.source ∈ seen := by
              rcases hsel with hns | hlen
              · exact hns
              · omega
            intro hcontra
            apply hns
            rw [hcontra]
            apply hseen
            rw [List.getD_eq_getElem _ _ hja]
            exact List.getElem_mem _
      · rw [if_neg hsel]
        exact ih acc seen hseen hdiv

/-! ## C3 -/

/-- Two hits sharing a source domain, with equal relevance. -/
def dupA : SearchResult :=
  ⟨"q".toList, "glassdoor.com".toList, "t1".toList, "s1".toList, [], 1⟩

/-- A second hit with the same source as `dupA`. -/
def dupB : SearchResult :=
  ⟨"q".toList, "glassdoor.com".toList, "t2".toList, "s2".toList, [], 1⟩

/-- C3: on every combined hit list the final selection has at most 15
entries; it is a subsequence of the stable descending sort (hence itself
sorted descending, with the sort preserving discovery order on ties, as
the filter identity states); from the 6th selected entry on no source
domain repeats an earlier selection; and below 5 selections duplicate
domains are allowed (two same-domain hits are both kept). -/
theorem search_select_spec :
    (∀ l : List SearchResult,
        (search_select l).length ≤ 15 ∧
        (search_select l).Sublist (sortByRelevanceDesc l) ∧
        (search_select l).Pairwise
          (fun a b => b.relevance_score ≤ a.relevance_score) ∧
        (∀ q : ℚ,
          (sortByRelevanceDesc l).filter
              (fun x => decide (x.relevance_score = q)) =
            l.filter (fun x => decide (x.relevance_score = q))) ∧
        ∀ i j, 5 ≤ i → j < i → i < (search_select l).length →
          ((search_select l).getD i dummyHit).source ≠
            ((search_select l).getD j dummyHit).source) ∧
      search_select [dupA, dupB] = [dupA, dupB] := by
  constructor
  · intro l
    obtain ⟨s, hs, hsub⟩ := selectDiverse_append (sortByRelevanceDesc l) [] []
    have hsublist : (search_select l).Sublist (sortByRelevanceDesc l) := by
      unfold search_select
      rw [hs]
      simpa using hsub
    have hdiv0 : NoDupSourceFrom5 ([] : List SearchResult) := by
      intro i j _ _ hi
      simp at hi
    refine ⟨selectDiverse_length _ _ _ (by simp), hsublist,
      (sortedDesc_sort l).sublist hsublist, sort_stable l,
      selectDiverse_diverse _ [] [] (by simp) hdiv0⟩
  · rfl

/-- A hit with source `s` and relevance 1. -/
def hitS (s : String) : SearchResult := ⟨"q".toList, s.toList, [], [], [], 1⟩

/-- Seven hits with pairwise distinct sources and equal relevance. -/
def hits7 : List SearchResult := ["a", "b", "c", "d", "e", "f", "g"].map hitS

/-- Witness for C3: on seven distinct-source hits the 6th selected entry
has a source different from the 1st. -/
theorem search_select_witness :
    ((search_select hits7).getD 5 dummyHit).source ≠
      ((search_select hits7).getD 0 dummyHit).source :=
  (search_select_spec.1 hits7).2.2.2.2 5 0 (by norm_num) (by norm_num)
    (by rw [show (search_select hits7).length = 7 from rfl]; norm_num)

/-- Witness for C6 at the match text `150k`. -/
theorem k_suffix_witness :
    hasKChar "150k".toList = true ∧
      processMatch "150k".toList =
        ((numRuns "150k".toList).filterMap parseNum).filterMap fun n =>
          let n2 := if n < 1000 then n * 1000 else n
          if 30000 ≤ n2 ∧ n2 ≤ 2000000 then some n2 else none :=
  ⟨by decide, k_suffix_spec.1 "150k".toList (by decide)⟩
